import Mathlib

/-!
Verification of the PureDomain factory core.

This file gives a shallow embedding of the four factory functions of the
PureDomain repository (`createPureValueObject`, `createPureEntity`,
`createPureAggregateRoot`, `createPureDomainEvent`, found in
`src/domain/value_object.ts`, `src/domain/entity.ts`,
`src/domain/aggregate_root.ts` and the domain-event source file), and proves
the testable properties stated in the specification against it.

Modelling choices, all driven by the source:

* Property bags (`z.infer<TSchema>` values) are association lists from field
  names to flat JSON values (string / number / boolean).  JavaScript object
  spread `\x7b...a, ...b\x7d` is modelled by `objSpread`, which keeps `a`'s key
  order, lets `b`'s values win on collisions, and appends `b`'s fresh keys.
* The schema validator (`pureZodParse` from the external `pure-trace`
  package together with a `zod` schema) is an opaque collaborator; per the
  specification its contract is `validate(schema, candidate) ->
  ValidatedValue | ValidationErrors`, so a schema is modelled as an
  arbitrary function `Props → Result Props`.
* The `Result` container of `pure-trace` is external as well; from the
  specification's contract and the call sites, `mapSuccess` and
  `chainSuccess` both sequence a `Result`-returning continuation after a
  success and propagate failures unchanged.
* `JSON.stringify`, used by the value-object `equals`, is modelled by a
  character-level serializer (for strings without control characters, which
  `JSON.stringify` would additionally escape).
* The receiver of `patch` can never be mutated in the pure embedding by
  construction, so the frame/non-mutation claims are additionally settled
  against a store-passing embedding (`entityPatchH`, `aggregatePatchH`) in
  which every JavaScript object spread is an allocation of a fresh cell.
-/

namespace PureDomain

/-- Flat JSON values: the data universe for validated properties.  The
repository's schemas range over JSON data; the claims only need the
primitive (non-nested) values, which is also the domain on which the
JavaScript identity comparison `===` used by `equals` is value equality. -/
inductive Value where
  | str (s : String)
  | nat (n : Nat)
  | bool (b : Bool)
deriving DecidableEq, Repr

/-- A validated property bag `z.infer<TSchema>`: field names with values,
in JavaScript object insertion order. -/
abbrev Props := List (String × Value)

/-- The default identifier field name (`props.id`). -/
def idKey : String := "id"

/-- First-match association lookup, the semantics of JavaScript property
access `obj[k]` (`none` models `undefined`). -/
def lookupProp (p : Props) (k : String) : Option Value :=
  match p with
  | [] => none
  | (k', v) :: rest => if k' = k then some v else lookupProp rest k

/-- JavaScript object spread `\x7b...a, ...b\x7d`: `a`'s keys in `a`'s order
(with `b`'s value winning on a key collision), then `b`'s keys that are not
in `a`, in `b`'s order. -/
def objSpread (a b : Props) : Props :=
  a.map (fun kv => (kv.1, (lookupProp b kv.1).getD kv.2)) ++
    b.filter (fun kv => (lookupProp a kv.1).isNone)

/-- The `Result` type of the external `pure-trace` package (specification
section 6): success value or failure list. -/
inductive Result (α : Type) where
  | success (value : α)
  | failure (errors : List String)
deriving DecidableEq, Repr

namespace Result

/-- Sequence a `Result`-returning continuation after a success,
short-circuiting on failure (`chainSuccess` of `pure-trace`). -/
def chainSuccess : Result α → (α → Result β) → Result β
  | success v, f => f v
  | failure e, _ => failure e

/-- As called throughout the source, `mapSuccess` also receives a
`Result`-returning continuation (the call sites wrap the value in
`new Success(...)`) and propagates failures unchanged. -/
def mapSuccess : Result α → (α → Result β) → Result β
  | success v, f => f v
  | failure e, _ => failure e

/-- Success predicate of the `Result` contract. -/
def isSuccess : Result α → Bool
  | success _ => true
  | failure _ => false

end Result

/-- A schema as the core sees it: the opaque validator contract
`validate(schema, candidate) -> ValidatedValue | ValidationErrors`. -/
abbrev SchemaFn := Props → Result Props

/-- `pureZodParse(data, schema)` of the external `pure-trace` package:
run the opaque validator. -/
def pureZodParse (data : Props) (schema : SchemaFn) : Result Props :=
  schema data

/-- The configuration closed over by `createPureEntity` /
`createPureAggregateRoot`: the factory arguments
`(schema, updateSchema?, validateUpdate?, identifierExtractor?)`. -/
structure FactoryConfig where
  schema : SchemaFn
  updateSchema : Option SchemaFn := none
  validateUpdate : Option (Props → Props → Result Unit) := none
  identifierExtractor : Option (Props → Option Value) := none

/-- The identifier extractor actually used by the constructors:
`identifierExtractor || (props => props.id)`. -/
def idExtract (cfg : FactoryConfig) (props : Props) : Option Value :=
  match cfg.identifierExtractor with
  | some f => f props
  | none => lookupProp props idKey

/-- `const effectiveUpdateSchema = updateSchema || schema` in `patch`. -/
def effectiveUpdateSchema (cfg : FactoryConfig) : SchemaFn :=
  match cfg.updateSchema with
  | some us => us
  | none => cfg.schema

/-- An entity instance: `readonly properties` and the cached
`readonly identifier` (`undefined` modelled as `none`). -/
structure Entity where
  properties : Props
  identifier : Option Value
deriving DecidableEq, Repr

/-- The `Entity` constructor: copy the properties (the spread copy has the
same entries, so the contents are `props`) and compute the identifier from
them with the effective extractor. -/
def mkEntity (cfg : FactoryConfig) (props : Props) : Entity :=
  { properties := props, identifier := idExtract cfg props }

/-- `Entity.create(data)`: validate against the full schema, then construct. -/
def entityCreate (cfg : FactoryConfig) (data : Props) : Result Entity :=
  (pureZodParse data cfg.schema).mapSuccess
    (fun validatedData => Result.success (mkEntity cfg validatedData))

/-- `Entity.patch(updates)`: validate the payload against the effective
update schema, then (if configured) run `validateUpdate`, then shallow-merge
the validated updates over the current properties, re-validate the merged
whole against the full schema, and construct a new instance. -/
def entityPatch (cfg : FactoryConfig) (e : Entity) (updates : Props) :
    Result Entity :=
  ((pureZodParse updates (effectiveUpdateSchema cfg)).chainSuccess
    (fun validatedUpdates =>
      match cfg.validateUpdate with
      | some vu =>
          (vu e.properties validatedUpdates).chainSuccess (fun _ =>
            pureZodParse (objSpread e.properties validatedUpdates) cfg.schema)
      | none =>
          pureZodParse (objSpread e.properties validatedUpdates) cfg.schema)
    ).mapSuccess
    (fun validatedData => Result.success (mkEntity cfg validatedData))

/-- `Entity.equals(other)`: identifier comparison with `===`. -/
def entityEquals (a b : Entity) : Bool :=
  a.identifier == b.identifier

/-- An aggregate-root instance: an entity plus the
`readonly domainEvents` sequence (events are an opaque type `ε`). -/
structure Aggregate (ε : Type) where
  properties : Props
  identifier : Option Value
  domainEvents : List ε
deriving DecidableEq, Repr

/-- The `AggregateRoot` constructor: copy properties, recompute the
identifier, copy the event array. -/
def mkAggregate (cfg : FactoryConfig) (props : Props) (events : List ε) :
    Aggregate ε :=
  { properties := props, identifier := idExtract cfg props,
    domainEvents := events }

/-- `AggregateRoot.create(data)`: the events default to the empty array. -/
def aggregateCreate (cfg : FactoryConfig) (data : Props) :
    Result (Aggregate ε) :=
  (pureZodParse data cfg.schema).mapSuccess
    (fun validatedData => Result.success (mkAggregate cfg validatedData []))

/-- `AggregateRoot.patch(updates)`: same pipeline as `Entity.patch`, with
the current `domainEvents` passed to the new instance. -/
def aggregatePatch (cfg : FactoryConfig) (a : Aggregate ε) (updates : Props) :
    Result (Aggregate ε) :=
  ((pureZodParse updates (effectiveUpdateSchema cfg)).chainSuccess
    (fun validatedUpdates =>
      match cfg.validateUpdate with
      | some vu =>
          (vu a.properties validatedUpdates).chainSuccess (fun _ =>
            pureZodParse (objSpread a.properties validatedUpdates) cfg.schema)
      | none =>
          pureZodParse (objSpread a.properties validatedUpdates) cfg.schema)
    ).mapSuccess
    (fun validatedData =>
      Result.success (mkAggregate cfg validatedData a.domainEvents))

/-- `AggregateRoot.addEvent(event)`: a new instance built by the
constructor from the same properties and the extended event array. -/
def addEvent (cfg : FactoryConfig) (a : Aggregate ε) (ev : ε) : Aggregate ε :=
  mkAggregate cfg a.properties (a.domainEvents ++ [ev])

/-- `AggregateRoot.clearEvents()`: a new instance built by the constructor
from the same properties and an empty event array. -/
def clearEvents (cfg : FactoryConfig) (a : Aggregate ε) : Aggregate ε :=
  mkAggregate cfg a.properties []

/-- `AggregateRoot.equals(other)`: identifier comparison with `===`. -/
def aggregateEquals (a b : Aggregate ε) : Bool :=
  a.identifier == b.identifier

/-- A value-object instance: `readonly properties` only. -/
structure ValueObject where
  properties : Props
deriving DecidableEq, Repr

/-- `ValueObject.create(data)`: validate, then construct. -/
def valueObjectCreate (schema : SchemaFn) (data : Props) : Result ValueObject :=
  (pureZodParse data schema).mapSuccess
    (fun validatedData => Result.success ⟨validatedData⟩)

/-- A domain-event instance: the fixed event name, the construction-time
timestamp (`new Date()`, modelled as an explicit clock value), and the
validated payload. -/
structure DomainEvent where
  eventName : String
  occurredOn : Nat
  payload : Props
deriving DecidableEq, Repr

/-- `DomainEvent.create(payload)`: validate the payload, then construct
with the factory's event name and the current time. -/
def domainEventCreate (eventName : String) (payloadSchema : SchemaFn)
    (now : Nat) (payload : Props) : Result DomainEvent :=
  (pureZodParse payload payloadSchema).mapSuccess
    (fun validatedPayload =>
      Result.success ⟨eventName, now, validatedPayload⟩)

/-!
Support lemmas about lookup and the object-spread merge.
-/

theorem lookupProp_append (xs ys : Props) (k : String) :
    lookupProp (xs ++ ys) k =
      match lookupProp xs k with
      | some v => some v
      | none => lookupProp ys k := by
  induction xs with
  | nil => simp [lookupProp]
  | cons kv rest ih =>
      obtain ⟨k', v⟩ := kv
      by_cases h : k' = k <;> simp [lookupProp, h, ih]

theorem lookupProp_mapOverride (a b : Props) (k : String) :
    lookupProp (a.map (fun kv => (kv.1, (lookupProp b kv.1).getD kv.2))) k =
      (lookupProp a k).map (fun v => (lookupProp b k).getD v) := by
  induction a with
  | nil => simp [lookupProp]
  | cons kv rest ih =>
      obtain ⟨k', v⟩ := kv
      by_cases h : k' = k <;> simp [lookupProp, h, ih]

theorem lookupProp_filterNotIn (a b : Props) (k : String) :
    lookupProp (b.filter (fun kv => (lookupProp a kv.1).isNone)) k =
      if (lookupProp a k).isNone then lookupProp b k else none := by
  induction b with
  | nil => simp [lookupProp]
  | cons kv rest ih =>
      obtain ⟨k', v⟩ := kv
      by_cases hk : k' = k
      · subst hk
        by_cases ha : (lookupProp a k').isNone
        · simp [List.filter, lookupProp, ha, ih]
        · simp [List.filter, lookupProp, ha, ih]
      · by_cases ha : (lookupProp a k').isNone
        · simp [List.filter, lookupProp, hk, ha, ih]
        · simp [List.filter, lookupProp, hk, ha, ih]

/-- Lookup in a JavaScript spread-merge: the update object's fields win on a
key collision, the base object's fields survive otherwise. -/
theorem lookupProp_objSpread (a b : Props) (k : String) :
    lookupProp (objSpread a b) k =
      match lookupProp b k with
      | some w => some w
      | none => lookupProp a k := by
  unfold objSpread
  rw [lookupProp_append, lookupProp_mapOverride, lookupProp_filterNotIn]
  cases ha : lookupProp a k <;> cases hb : lookupProp b k <;>
    simp [Option.getD, ha, hb]

/-- Spreading an empty update object over `p` yields `p` itself. -/
theorem objSpread_nil_right (p : Props) : objSpread p [] = p := by
  unfold objSpread
  simp [lookupProp]

theorem mem_of_lookupProp_some {p : Props} {k : String} {v : Value}
    (h : lookupProp p k = some v) : (k, v) ∈ p := by
  induction p with
  | nil => simp [lookupProp] at h
  | cons kv rest ih =>
      obtain ⟨k', v'⟩ := kv
      by_cases hk : k' = k
      · subst hk
        simp [lookupProp] at h
        simp [h]
      · simp [lookupProp, hk] at h
        exact List.mem_cons_of_mem _ (ih h)

/-!
Store-passing embedding of `patch`.

In the pure embedding above the receiver is trivially unchanged by
`patch`, so the specification's non-mutation claims are settled against a
store-passing rendition of the same method in which every JavaScript
object spread allocates a fresh cell and the receiver's `properties` field
is a reference into the store.  The source never assigns through `this`,
so the embedding only ever allocates; the frame theorems check that the
receiver's cell is untouched and the returned instance is fresh.
-/

/-- A store of allocated JavaScript objects: each cell holds the contents
of one properties object. -/
structure Store where
  cells : List Props
deriving DecidableEq, Repr

/-- Dereference a properties object. -/
def Store.get (s : Store) (r : Nat) : Option Props :=
  s.cells[r]?

/-- Allocate a fresh properties object (what an object-spread expression
does), returning the extended store and the new reference. -/
def Store.alloc (s : Store) (p : Props) : Store × Nat :=
  (⟨s.cells ++ [p]⟩, s.cells.length)

/-- An entity instance at the store level: `properties` is a reference to
the cell allocated by the constructor's defensive spread copy. -/
structure EntityH where
  propsRef : Nat
  identifier : Option Value
deriving DecidableEq, Repr

/-- The `Entity` constructor at the store level: allocate the spread copy
`\x7b...properties\x7d`, then compute the identifier from it. -/
def mkEntityH (cfg : FactoryConfig) (s : Store) (props : Props) :
    Store × EntityH :=
  let al := s.alloc props
  (al.1, { propsRef := al.2, identifier := idExtract cfg props })

/-- `Entity.patch(updates)` at the store level: read the receiver's
properties cell, run the validation pipeline, and on success allocate the
merged object through the constructor.  No step writes to an existing
cell. -/
def entityPatchH (cfg : FactoryConfig) (s : Store) (e : EntityH)
    (updates : Props) : Result EntityH × Store :=
  match s.get e.propsRef with
  | none => (Result.failure ["dangling receiver"], s)
  | some props =>
    match pureZodParse updates (effectiveUpdateSchema cfg) with
    | Result.failure errs => (Result.failure errs, s)
    | Result.success validatedUpdates =>
      let revalidated : Result Props :=
        match cfg.validateUpdate with
        | some vu =>
            (vu props validatedUpdates).chainSuccess (fun _ =>
              pureZodParse (objSpread props validatedUpdates) cfg.schema)
        | none =>
            pureZodParse (objSpread props validatedUpdates) cfg.schema
      match revalidated with
      | Result.failure errs => (Result.failure errs, s)
      | Result.success validatedData =>
          let made := mkEntityH cfg s validatedData
          (Result.success made.2, made.1)

/-- An aggregate-root instance at the store level. -/
structure AggregateH (ε : Type) where
  propsRef : Nat
  identifier : Option Value
  domainEvents : List ε
deriving DecidableEq, Repr

/-- The `AggregateRoot` constructor at the store level. -/
def mkAggregateH (cfg : FactoryConfig) (s : Store) (props : Props)
    (events : List ε) : Store × AggregateH ε :=
  let al := s.alloc props
  (al.1,
   { propsRef := al.2, identifier := idExtract cfg props,
     domainEvents := events })

/-- `AggregateRoot.patch(updates)` at the store level: identical pipeline,
passing the receiver's `domainEvents` to the new instance. -/
def aggregatePatchH (cfg : FactoryConfig) (s : Store) (a : AggregateH ε)
    (updates : Props) : Result (AggregateH ε) × Store :=
  match s.get a.propsRef with
  | none => (Result.failure ["dangling receiver"], s)
  | some props =>
    match pureZodParse updates (effectiveUpdateSchema cfg) with
    | Result.failure errs => (Result.failure errs, s)
    | Result.success validatedUpdates =>
      let revalidated : Result Props :=
        match cfg.validateUpdate with
        | some vu =>
            (vu props validatedUpdates).chainSuccess (fun _ =>
              pureZodParse (objSpread props validatedUpdates) cfg.schema)
        | none =>
            pureZodParse (objSpread props validatedUpdates) cfg.schema
      match revalidated with
      | Result.failure errs => (Result.failure errs, s)
      | Result.success validatedData =>
          let made := mkAggregateH cfg s validatedData a.domainEvents
          (Result.success made.2, made.1)

/-- Allocation never disturbs an already-allocated cell. -/
theorem Store.get_alloc_of_lt (s : Store) (p : Props) (r : Nat)
    (h : r < s.cells.length) : (s.alloc p).1.get r = s.get r := by
  simp only [Store.alloc, Store.get]
  rw [List.getElem?_append]
  simp [h]

/-- A successful dereference means the reference is inside the store. -/
theorem Store.lt_of_get_some {s : Store} {r : Nat} {p : Props}
    (h : s.get r = some p) : r < s.cells.length := by
  by_contra hlt
  rw [Store.get, List.getElem?_eq_none (by omega)] at h
  exact Option.noConfusion h

/-- Helper frame fact shared by the non-mutation claims: the store-level
`Entity.patch` leaves the receiver's properties cell exactly as it was. -/
theorem entityPatchH_receiver (cfg : FactoryConfig) (s : Store) (e : EntityH)
    (u : Props) : ((entityPatchH cfg s e u).2).get e.propsRef =
      s.get e.propsRef := by
  unfold entityPatchH
  cases hget : s.get e.propsRef with
  | none => simp [hget]
  | some props =>
    cases hparse : pureZodParse u (effectiveUpdateSchema cfg) with
    | failure errs => simp [hget]
    | success validatedUpdates =>
      simp only [hget]
      cases hrv :
          (match cfg.validateUpdate with
          | some vu =>
              (vu props validatedUpdates).chainSuccess (fun _ =>
                pureZodParse (objSpread props validatedUpdates) cfg.schema)
          | none =>
              pureZodParse (objSpread props validatedUpdates) cfg.schema) with
      | failure errs => simp [hrv, hget]
      | success validatedData =>
          simp only [hrv, mkEntityH]
          rw [Store.get_alloc_of_lt _ _ _ (Store.lt_of_get_some hget)]
          exact hget

/-- Helper frame fact: the store-level `AggregateRoot.patch` leaves the
receiver's properties cell exactly as it was. -/
theorem aggregatePatchH_receiver (cfg : FactoryConfig) (s : Store)
    (a : AggregateH ε) (u : Props) :
    ((aggregatePatchH cfg s a u).2).get a.propsRef = s.get a.propsRef := by
  unfold aggregatePatchH
  cases hget : s.get a.propsRef with
  | none => simp [hget]
  | some props =>
    cases hparse : pureZodParse u (effectiveUpdateSchema cfg) with
    | failure errs => simp [hget]
    | success validatedUpdates =>
      simp only [hget]
      cases hrv :
          (match cfg.validateUpdate with
          | some vu =>
              (vu props validatedUpdates).chainSuccess (fun _ =>
                pureZodParse (objSpread props validatedUpdates) cfg.schema)
          | none =>
              pureZodParse (objSpread props validatedUpdates) cfg.schema) with
      | failure errs => simp [hrv, hget]
      | success validatedData =>
          simp only [hrv, mkAggregateH]
          rw [Store.get_alloc_of_lt _ _ _ (Store.lt_of_get_some hget)]
          exact hget

/-!
Inversion lemmas for successful `create` and `patch` calls.
-/

theorem entityCreate_success_inv {cfg : FactoryConfig} {d : Props} {e : Entity}
    (h : entityCreate cfg d = Result.success e) :
    ∃ v, pureZodParse d cfg.schema = Result.success v ∧ e = mkEntity cfg v := by
  unfold entityCreate at h
  cases hv : pureZodParse d cfg.schema with
  | failure errs => rw [hv] at h; exact Result.noConfusion h
  | success v =>
      rw [hv] at h
      simp only [Result.mapSuccess] at h
      exact ⟨v, rfl, (Result.success.inj h).symm⟩

theorem aggregateCreate_success_inv {cfg : FactoryConfig} {d : Props}
    {a : Aggregate ε} (h : aggregateCreate cfg d = Result.success a) :
    ∃ v, pureZodParse d cfg.schema = Result.success v ∧
      a = mkAggregate cfg v [] := by
  unfold aggregateCreate at h
  cases hv : pureZodParse d cfg.schema with
  | failure errs => rw [hv] at h; exact Result.noConfusion h
  | success v =>
      rw [hv] at h
      simp only [Result.mapSuccess] at h
      exact ⟨v, rfl, (Result.success.inj h).symm⟩

theorem entityPatch_success_inv {cfg : FactoryConfig} {e e' : Entity}
    {u : Props} (h : entityPatch cfg e u = Result.success e') :
    ∃ vu vd, pureZodParse u (effectiveUpdateSchema cfg) = Result.success vu ∧
      pureZodParse (objSpread e.properties vu) cfg.schema =
        Result.success vd ∧
      e' = mkEntity cfg vd := by
  unfold entityPatch at h
  cases hu : pureZodParse u (effectiveUpdateSchema cfg) with
  | failure errs =>
      rw [hu] at h
      simp only [Result.chainSuccess, Result.mapSuccess] at h
      exact Result.noConfusion h
  | success vu =>
      rw [hu] at h
      simp only [Result.chainSuccess] at h
      refine ⟨vu, ?_⟩
      cases hval : cfg.validateUpdate with
      | none =>
          rw [hval] at h
          cases hm : pureZodParse (objSpread e.properties vu) cfg.schema with
          | failure errs =>
              rw [hm] at h
              simp only [Result.mapSuccess] at h
              exact Result.noConfusion h
          | success vd =>
              rw [hm] at h
              simp only [Result.mapSuccess] at h
              exact ⟨vd, rfl, rfl, (Result.success.inj h).symm⟩
      | some vufn =>
          rw [hval] at h
          dsimp only at h
          cases hb : vufn e.properties vu with
          | failure errs =>
              rw [hb] at h
              simp only [Result.chainSuccess, Result.mapSuccess] at h
              exact Result.noConfusion h
          | success uu =>
              rw [hb] at h
              simp only [Result.chainSuccess] at h
              cases hm : pureZodParse (objSpread e.properties vu) cfg.schema with
              | failure errs =>
                  rw [hm] at h
                  simp only [Result.mapSuccess] at h
                  exact Result.noConfusion h
              | success vd =>
                  rw [hm] at h
                  simp only [Result.mapSuccess] at h
                  exact ⟨vd, rfl, rfl, (Result.success.inj h).symm⟩

theorem aggregatePatch_success_inv {cfg : FactoryConfig} {a a' : Aggregate ε}
    {u : Props} (h : aggregatePatch cfg a u = Result.success a') :
    ∃ vu vd, pureZodParse u (effectiveUpdateSchema cfg) = Result.success vu ∧
      pureZodParse (objSpread a.properties vu) cfg.schema =
        Result.success vd ∧
      a' = mkAggregate cfg vd a.domainEvents := by
  unfold aggregatePatch at h
  cases hu : pureZodParse u (effectiveUpdateSchema cfg) with
  | failure errs =>
      rw [hu] at h
      simp only [Result.chainSuccess, Result.mapSuccess] at h
      exact Result.noConfusion h
  | success vu =>
      rw [hu] at h
      simp only [Result.chainSuccess] at h
      refine ⟨vu, ?_⟩
      cases hval : cfg.validateUpdate with
      | none =>
          rw [hval] at h
          cases hm : pureZodParse (objSpread a.properties vu) cfg.schema with
          | failure errs =>
              rw [hm] at h
              simp only [Result.mapSuccess] at h
              exact Result.noConfusion h
          | success vd =>
              rw [hm] at h
              simp only [Result.mapSuccess] at h
              exact ⟨vd, rfl, rfl, (Result.success.inj h).symm⟩
      | some vufn =>
          rw [hval] at h
          dsimp only at h
          cases hb : vufn a.properties vu with
          | failure errs =>
              rw [hb] at h
              simp only [Result.chainSuccess, Result.mapSuccess] at h
              exact Result.noConfusion h
          | success uu =>
              rw [hb] at h
              simp only [Result.chainSuccess] at h
              cases hm : pureZodParse (objSpread a.properties vu) cfg.schema with
              | failure errs =>
                  rw [hm] at h
                  simp only [Result.mapSuccess] at h
                  exact Result.noConfusion h
              | success vd =>
                  rw [hm] at h
                  simp only [Result.mapSuccess] at h
                  exact ⟨vd, rfl, rfl, (Result.success.inj h).symm⟩

/-!
Reachability of instances through the exposed surface of the factories.

The declared return type of `createPureEntity` is
`\x7b new (properties): PureEntity; create(data): Result<PureEntity> \x7d`,
so a caller can reach an instance through the public constructor, through
`create`, or by calling `patch` on an instance it already has.  The
aggregate-root factory additionally exposes `addEvent` and `clearEvents`.
-/

/-- Entity instances reachable by callers of `createPureEntity`'s result. -/
inductive EntityReachable (cfg : FactoryConfig) : Entity → Prop where
  | ctor (p : Props) : EntityReachable cfg (mkEntity cfg p)
  | create (d : Props) (e : Entity)
      (h : entityCreate cfg d = Result.success e) : EntityReachable cfg e
  | patch (e : Entity) (u : Props) (e' : Entity)
      (h0 : EntityReachable cfg e)
      (h : entityPatch cfg e u = Result.success e') : EntityReachable cfg e'

/-- Aggregate-root instances reachable by callers of
`createPureAggregateRoot`'s result. -/
inductive AggregateReachable (cfg : FactoryConfig) : Aggregate ε → Prop where
  | ctor (p : Props) : AggregateReachable cfg (mkAggregate cfg p [])
  | create (d : Props) (a : Aggregate ε)
      (h : aggregateCreate cfg d = Result.success a) : AggregateReachable cfg a
  | patch (a : Aggregate ε) (u : Props) (a' : Aggregate ε)
      (h0 : AggregateReachable cfg a)
      (h : aggregatePatch cfg a u = Result.success a') :
      AggregateReachable cfg a'
  | add (a : Aggregate ε) (ev : ε) (h0 : AggregateReachable cfg a) :
      AggregateReachable cfg (addEvent cfg a ev)
  | clear (a : Aggregate ε) (h0 : AggregateReachable cfg a) :
      AggregateReachable cfg (clearEvents cfg a)

/-- Entity instances reachable through the validating operations only
(`create` and `patch`, the public constructor excluded). -/
inductive ValidatedEntityReachable (cfg : FactoryConfig) : Entity → Prop where
  | create (d : Props) (e : Entity)
      (h : entityCreate cfg d = Result.success e) :
      ValidatedEntityReachable cfg e
  | patch (e : Entity) (u : Props) (e' : Entity)
      (h0 : ValidatedEntityReachable cfg e)
      (h : entityPatch cfg e u = Result.success e') :
      ValidatedEntityReachable cfg e'

/-- Aggregate-root instances reachable through the validating operations
only. -/
inductive ValidatedAggregateReachable (cfg : FactoryConfig) :
    Aggregate ε → Prop where
  | create (d : Props) (a : Aggregate ε)
      (h : aggregateCreate cfg d = Result.success a) :
      ValidatedAggregateReachable cfg a
  | patch (a : Aggregate ε) (u : Props) (a' : Aggregate ε)
      (h0 : ValidatedAggregateReachable cfg a)
      (h : aggregatePatch cfg a u = Result.success a') :
      ValidatedAggregateReachable cfg a'
  | add (a : Aggregate ε) (ev : ε) (h0 : ValidatedAggregateReachable cfg a) :
      ValidatedAggregateReachable cfg (addEvent cfg a ev)
  | clear (a : Aggregate ε) (h0 : ValidatedAggregateReachable cfg a) :
      ValidatedAggregateReachable cfg (clearEvents cfg a)

/-!
A character-level model of `JSON.stringify` on flat property bags, used by
the value-object `equals`.  Strings are quoted with `"` and `\` escaped
(control characters, which `JSON.stringify` would also escape, are outside
the modelled data universe); numbers print in decimal; booleans print as
`true` / `false`; objects print their entries in insertion order.  A
deterministic parser is also defined, and a roundtrip theorem makes the
serializer injective, which is what the equality claims need.
-/

/-- The decimal digit characters. -/
def digitToChar (d : Nat) : Char :=
  match d with
  | 0 => '0'
  | 1 => '1'
  | 2 => '2'
  | 3 => '3'
  | 4 => '4'
  | 5 => '5'
  | 6 => '6'
  | 7 => '7'
  | 8 => '8'
  | _ => '9'

/-- Numeric value of a decimal digit character. -/
def charToDigit (c : Char) : Nat :=
  c.toNat - 48

/-- Recognizer for decimal digit characters. -/
def isDigitCh (c : Char) : Bool :=
  decide (48 ≤ c.toNat) && decide (c.toNat ≤ 57)

/-- Decimal rendering of a natural number (most significant digit first). -/
def natChars (n : Nat) : List Char :=
  if n = 0 then ['0'] else ((Nat.digits 10 n).map digitToChar).reverse

/-- Split a leading run of digit characters from the input. -/
def spanDigits : List Char → List Char × List Char
  | [] => ([], [])
  | c :: cs =>
      if isDigitCh c then
        let r := spanDigits cs
        (c :: r.1, r.2)
      else ([], c :: cs)

/-- Numeric value of a most-significant-first digit-character run. -/
def digitsVal (ds : List Char) : Nat :=
  Nat.ofDigits 10 ((ds.map charToDigit).reverse)

/-- Parse a decimal number, maximal munch. -/
def parseNum (cs : List Char) : Option (Nat × List Char) :=
  let sp := spanDigits cs
  if sp.1 = [] then none else some (digitsVal sp.1, sp.2)

/-- The input does not begin with a digit character (so a number just
before it parses by maximal munch). -/
def nonDigitStart : List Char → Bool
  | [] => true
  | c :: _ => !(isDigitCh c)

/-- JSON string-body escaping: `"` and `\` are preceded by a backslash. -/
def escapeChars : List Char → List Char
  | [] => []
  | c :: cs =>
      if c = '"' ∨ c = '\\' then '\\' :: c :: escapeChars cs
      else c :: escapeChars cs

/-- Parse a JSON string body up to the closing quote, undoing escapes. -/
def parseStringBody : List Char → Option (List Char × List Char)
  | [] => none
  | c :: cs =>
      if c = '\\' then
        match cs with
        | [] => none
        | d :: ds => (parseStringBody ds).map (fun x => (d :: x.1, x.2))
      else if c = '"' then some ([], cs)
      else (parseStringBody cs).map (fun x => (c :: x.1, x.2))

/-- `JSON.stringify` of a flat value, as a character list. -/
def serializeValue : Value → List Char
  | Value.str s => '"' :: (escapeChars s.data ++ ['"'])
  | Value.nat n => natChars n
  | Value.bool b => if b then ['t', 'r', 'u', 'e'] else ['f', 'a', 'l', 's', 'e']

/-- Parse one JSON value (string, boolean or number). -/
def parseValue (cs : List Char) : Option (Value × List Char) :=
  match cs with
  | [] => none
  | c :: rest =>
      if c = '"' then
        (parseStringBody rest).map (fun x => (Value.str (String.mk x.1), x.2))
      else if c = 't' then
        if rest.take 3 = ['r', 'u', 'e'] then
          some (Value.bool true, rest.drop 3)
        else none
      else if c = 'f' then
        if rest.take 4 = ['a', 'l', 's', 'e'] then
          some (Value.bool false, rest.drop 4)
        else none
      else (parseNum (c :: rest)).map (fun x => (Value.nat x.1, x.2))

/-- `JSON.stringify` of one object entry: quoted key, colon, value. -/
def serializeEntry (kv : String × Value) : List Char :=
  '"' :: (escapeChars kv.1.data ++ '"' :: ':' :: serializeValue kv.2)

/-- Parse a quoted key followed by a colon. -/
def parseKey (cs : List Char) : Option (String × List Char) :=
  match cs with
  | [] => none
  | c :: rest =>
      if c = '"' then
        (parseStringBody rest).bind (fun x =>
          match x.2 with
          | [] => none
          | c2 :: r2 => if c2 = ':' then some (String.mk x.1, r2) else none)
      else none

/-- `JSON.stringify` of the comma-separated entry list. -/
def serializeEntries : Props → List Char
  | [] => []
  | [kv] => serializeEntry kv
  | kv :: rest => serializeEntry kv ++ ',' :: serializeEntries rest

/-- Parse a non-empty comma-separated entry list up to the closing brace
(the fuel bounds the number of entries). -/
def parseEntriesAux : Nat → List Char → Option (Props × List Char)
  | 0, _ => none
  | fuel + 1, cs =>
      (parseKey cs).bind (fun kx =>
        (parseValue kx.2).bind (fun vx =>
          match vx.2 with
          | [] => none
          | c :: r3 =>
              if c = ',' then
                (parseEntriesAux fuel r3).map
                  (fun px => ((kx.1, vx.1) :: px.1, px.2))
              else if c = '\x7d' then some ([(kx.1, vx.1)], r3)
              else none))

/-- `JSON.stringify` of a flat object. -/
def serializeProps (p : Props) : List Char :=
  '\x7b' :: (serializeEntries p ++ ['\x7d'])

/-- Parse a flat JSON object. -/
def parseProps (cs : List Char) : Option (Props × List Char) :=
  match cs with
  | [] => none
  | c :: rest =>
      if c = '\x7b' then
        match rest with
        | [] => none
        | c2 :: r2 =>
            if c2 = '\x7d' then some ([], r2)
            else parseEntriesAux (c2 :: r2).length (c2 :: r2)
      else none

/-- The string `JSON.stringify(properties)` used by `ValueObject.equals`. -/
def jsonStringify (p : Props) : String :=
  String.mk (serializeProps p)

/-- `ValueObject.equals(other)`: comparison of the serialized forms with
`===`. -/
def valueObjectEquals (a b : ValueObject) : Bool :=
  jsonStringify a.properties == jsonStringify b.properties

/-!
Roundtrip correctness of the parser on serializer output, giving
injectivity of the modelled `JSON.stringify`.
-/

theorem charToDigit_digitToChar {d : Nat} (h : d < 10) :
    charToDigit (digitToChar d) = d := by
  interval_cases d <;> decide

theorem isDigitCh_digitToChar {d : Nat} (h : d < 10) :
    isDigitCh (digitToChar d) = true := by
  interval_cases d <;> decide

theorem natChars_ne_nil (n : Nat) : natChars n ≠ [] := by
  unfold natChars
  by_cases h : n = 0
  · simp [h]
  · rw [if_neg h]
    simp only [ne_eq, List.reverse_eq_nil_iff, List.map_eq_nil_iff]
    exact Nat.digits_ne_nil_iff_ne_zero.mpr h

theorem natChars_all_digits (n : Nat) :
    ∀ c ∈ natChars n, isDigitCh c = true := by
  intro c hc
  unfold natChars at hc
  by_cases h : n = 0
  · rw [if_pos h] at hc
    simp at hc
    subst hc
    decide
  · rw [if_neg h] at hc
    rw [List.mem_reverse] at hc
    obtain ⟨d, hd, rfl⟩ := List.mem_map.mp hc
    exact isDigitCh_digitToChar (Nat.digits_lt_base (by norm_num) hd)

theorem spanDigits_append (ds r : List Char)
    (hds : ∀ c ∈ ds, isDigitCh c = true) (hr : nonDigitStart r = true) :
    spanDigits (ds ++ r) = (ds, r) := by
  induction ds with
  | nil =>
      simp only [List.nil_append]
      cases r with
      | nil => rfl
      | cons c cs =>
          simp only [nonDigitStart, Bool.not_eq_true'] at hr
          simp [spanDigits, hr]
  | cons c cs ih =>
      have hc := hds c (by simp)
      have ihr := ih (fun c' hc' => hds c' (List.mem_cons_of_mem _ hc'))
      simp [spanDigits, hc, ihr]

theorem digitsVal_natChars (n : Nat) : digitsVal (natChars n) = n := by
  unfold natChars
  by_cases h : n = 0
  · rw [if_pos h]
    subst h
    decide
  · rw [if_neg h]
    unfold digitsVal
    have h1 : (((Nat.digits 10 n).map digitToChar).reverse.map charToDigit).reverse
        = (Nat.digits 10 n).map (fun d => charToDigit (digitToChar d)) := by
      rw [List.map_reverse, List.reverse_reverse, List.map_map]
      rfl
    rw [h1]
    have h2 : (Nat.digits 10 n).map (fun d => charToDigit (digitToChar d))
        = (Nat.digits 10 n).map id := by
      apply List.map_congr_left
      intro d hd
      exact charToDigit_digitToChar (Nat.digits_lt_base (by norm_num) hd)
    rw [h2, List.map_id]
    exact_mod_cast Nat.ofDigits_digits 10 n

theorem parseNum_natChars (n : Nat) (r : List Char)
    (hr : nonDigitStart r = true) :
    parseNum (natChars n ++ r) = some (n, r) := by
  unfold parseNum
  rw [spanDigits_append _ _ (natChars_all_digits n) hr]
  simp [natChars_ne_nil n, digitsVal_natChars n]

theorem stringMk_data (s : String) : String.mk s.data = s := rfl

theorem parseStringBody_roundtrip (s r : List Char) :
    parseStringBody (escapeChars s ++ '"' :: r) = some (s, r) := by
  induction s with
  | nil =>
      simp only [escapeChars, List.nil_append]
      unfold parseStringBody
      rw [if_neg (by decide), if_pos rfl]
  | cons c cs ih =>
      by_cases hc : c = '"' ∨ c = '\\'
      · simp only [escapeChars, if_pos hc, List.cons_append]
        unfold parseStringBody
        rw [if_pos rfl]
        simp [ih]
      · push_neg at hc
        simp only [escapeChars, if_neg (not_or.mpr hc), List.cons_append]
        unfold parseStringBody
        rw [if_neg hc.2, if_neg hc.1]
        simp [ih]

theorem isDigitCh_ne_quote {c : Char} (h : isDigitCh c = true) : c ≠ '"' := by
  intro hc
  subst hc
  exact absurd h (by decide)

theorem isDigitCh_ne_t {c : Char} (h : isDigitCh c = true) : c ≠ 't' := by
  intro hc
  subst hc
  exact absurd h (by decide)

theorem isDigitCh_ne_f {c : Char} (h : isDigitCh c = true) : c ≠ 'f' := by
  intro hc
  subst hc
  exact absurd h (by decide)

theorem parseValue_roundtrip (v : Value) (r : List Char)
    (hr : nonDigitStart r = true) :
    parseValue (serializeValue v ++ r) = some (v, r) := by
  cases v with
  | str s =>
      simp only [serializeValue, List.cons_append, List.append_assoc,
        List.singleton_append]
      unfold parseValue
      dsimp only
      rw [if_pos rfl, parseStringBody_roundtrip]
      simp [stringMk_data]
  | nat n =>
      obtain ⟨c, cs, hcc⟩ : ∃ c cs, natChars n = c :: cs := by
        cases hnc : natChars n with
        | nil => exact absurd hnc (natChars_ne_nil n)
        | cons c cs => exact ⟨c, cs, rfl⟩
      have hcd : isDigitCh c = true :=
        natChars_all_digits n c (by rw [hcc]; simp)
      have hlist : serializeValue (Value.nat n) ++ r = c :: (cs ++ r) := by
        simp [serializeValue, hcc]
      rw [hlist]
      unfold parseValue
      dsimp only
      rw [if_neg (isDigitCh_ne_quote hcd), if_neg (isDigitCh_ne_t hcd),
        if_neg (isDigitCh_ne_f hcd)]
      have hback : c :: (cs ++ r) = natChars n ++ r := by
        rw [hcc]
        simp
      rw [hback, parseNum_natChars n r hr]
      rfl
  | bool b =>
      cases b with
      | false =>
          simp only [serializeValue, Bool.false_eq_true, if_neg, ite_false,
            List.cons_append]
          unfold parseValue
          dsimp only
          rw [if_neg (show ¬('f' = '"') by decide),
            if_neg (show ¬('f' = 't') by decide), if_pos rfl]
          simp [List.take, List.drop]
      | true =>
          simp only [serializeValue, ite_true, List.cons_append]
          unfold parseValue
          dsimp only
          rw [if_neg (show ¬('t' = '"') by decide), if_pos rfl]
          simp [List.take, List.drop]

theorem parseKey_entry (k : String) (v : Value) (tail : List Char) :
    parseKey (serializeEntry (k, v) ++ tail) =
      some (k, serializeValue v ++ tail) := by
  have hshape : serializeEntry (k, v) ++ tail =
      '"' :: (escapeChars k.data ++ '"' :: (':' :: (serializeValue v ++ tail)))
      := by
    simp [serializeEntry]
  rw [hshape]
  unfold parseKey
  dsimp only
  rw [if_pos rfl, parseStringBody_roundtrip]
  simp [stringMk_data]

theorem parseEntriesAux_roundtrip (p : Props) :
    ∀ (fuel : Nat), p ≠ [] → p.length ≤ fuel → ∀ r : List Char,
    parseEntriesAux fuel (serializeEntries p ++ '\x7d' :: r) = some (p, r) := by
  induction p with
  | nil => intro fuel hne; exact absurd rfl hne
  | cons kv rest ih =>
      intro fuel _ hlen r
      obtain ⟨k, v⟩ := kv
      cases fuel with
      | zero => simp at hlen
      | succ f =>
          cases rest with
          | nil =>
              have hshape : serializeEntries [(k, v)] ++ '\x7d' :: r =
                  serializeEntry (k, v) ++ '\x7d' :: r := by
                simp [serializeEntries]
              rw [hshape]
              unfold parseEntriesAux
              rw [parseKey_entry]
              dsimp only [Option.bind]
              rw [parseValue_roundtrip v ('\x7d' :: r) (by rfl)]
              dsimp only [Option.bind]
              rw [if_neg (show ¬('\x7d' = ',') by decide), if_pos rfl]
          | cons kv2 rest2 =>
              have hshape :
                  serializeEntries ((k, v) :: kv2 :: rest2) ++ '\x7d' :: r =
                  serializeEntry (k, v) ++
                    (',' :: (serializeEntries (kv2 :: rest2) ++ '\x7d' :: r))
                  := by
                simp [serializeEntries]
              rw [hshape]
              unfold parseEntriesAux
              rw [parseKey_entry]
              dsimp only [Option.bind]
              have hval := parseValue_roundtrip v
                (',' :: (serializeEntries (kv2 :: rest2) ++ '\x7d' :: r))
                (by rfl)
              rw [hval]
              dsimp only [Option.bind]
              rw [if_pos rfl]
              have hlen2 : (kv2 :: rest2).length ≤ f := by
                simp only [List.length_cons] at hlen ⊢
                omega
              rw [ih f (by simp) hlen2 r]
              rfl

theorem serializeEntries_cons_head (kv : String × Value) (rest : Props) :
    ∃ t, serializeEntries (kv :: rest) = '"' :: t := by
  obtain ⟨k, v⟩ := kv
  cases rest with
  | nil => exact ⟨_, rfl⟩
  | cons kv2 rest2 => exact ⟨_, rfl⟩

theorem length_le_serializeEntries (p : Props) :
    p.length ≤ (serializeEntries p).length + 1 := by
  induction p with
  | nil => simp
  | cons kv rest ih =>
      cases rest with
      | nil => simp [serializeEntries]
      | cons kv2 rest2 =>
          have hshape : serializeEntries (kv :: kv2 :: rest2) =
              serializeEntry kv ++ ',' :: serializeEntries (kv2 :: rest2) :=
            rfl
          rw [hshape]
          simp only [List.length_cons, List.length_append] at *
          omega

theorem parseProps_roundtrip (p : Props) (r : List Char) :
    parseProps (serializeProps p ++ r) = some (p, r) := by
  cases p with
  | nil =>
      have hshape : serializeProps [] ++ r = '\x7b' :: '\x7d' :: r := by
        simp [serializeProps, serializeEntries]
      rw [hshape]
      unfold parseProps
      dsimp only
      rw [if_pos rfl, if_pos rfl]
  | cons kv rest =>
      obtain ⟨t, ht⟩ := serializeEntries_cons_head kv rest
      have hshape : serializeProps (kv :: rest) ++ r =
          '\x7b' :: (serializeEntries (kv :: rest) ++ '\x7d' :: r) := by
        simp [serializeProps]
      rw [hshape, ht, List.cons_append]
      unfold parseProps
      dsimp only
      rw [if_pos rfl, if_neg (show ¬('"' = '\x7d') by decide)]
      rw [← List.cons_append, ← ht]
      have hlen : (kv :: rest).length ≤
          (serializeEntries (kv :: rest) ++ '\x7d' :: r).length := by
        have h1 := length_le_serializeEntries (kv :: rest)
        simp only [List.length_append, List.length_cons] at h1 ⊢
        omega
      exact parseEntriesAux_roundtrip (kv :: rest) _ (by simp) hlen r

/-- The modelled `JSON.stringify` is injective on flat property bags. -/
theorem serializeProps_injective {p q : Props}
    (h : serializeProps p = serializeProps q) : p = q := by
  have hp := parseProps_roundtrip p []
  have hq := parseProps_roundtrip q []
  rw [List.append_nil] at hp hq
  rw [h, hq] at hp
  simp at hp
  exact hp.symm

theorem jsonStringify_injective {p q : Props}
    (h : jsonStringify p = jsonStringify q) : p = q := by
  apply serializeProps_injective
  exact congrArg String.data h

/-- `ValueObject.equals` is true exactly when the two property bags are
equal (over the modelled data universe the serialization is injective). -/
theorem valueObjectEquals_iff (a b : ValueObject) :
    valueObjectEquals a b = true ↔ a.properties = b.properties := by
  unfold valueObjectEquals
  rw [beq_iff_eq]
  constructor
  · exact fun h => jsonStringify_injective h
  · intro h
    rw [h]

/-!
Concrete configurations used by witnesses and counterexamples.
-/

/-- A passthrough validator: every candidate is returned unchanged (the
behaviour of a permissive zod object schema on already-conforming data). -/
def passSchema : SchemaFn := fun p => Result.success p

/-- A validator that rejects every candidate. -/
def failSchema : SchemaFn := fun _ => Result.failure ["invalid"]

/-- The `status` field name of the specification's concrete scenario. -/
def statusKey : String := "status"

/-- Demo properties: an order `o1` in state `draft`. -/
def demoProps : Props := [(idKey, Value.str "o1"), (statusKey, Value.str "draft")]

/-- An update schema requiring a `status` field (and returning the payload
unchanged). -/
def demoUpdateSchema : SchemaFn := fun u =>
  if (lookupProp u statusKey).isSome then Result.success u
  else Result.failure ["statusRequired"]

/-- The specification's business rule: shipping is only allowed from the
`confirmed` state. -/
def demoValidator : Props → Props → Result Unit := fun current updates =>
  if lookupProp updates statusKey = some (Value.str "shipped") ∧
      lookupProp current statusKey ≠ some (Value.str "confirmed") then
    Result.failure ["cannotShipUnconfirmedOrder"]
  else Result.success ()

/-- The specification's concrete order configuration. -/
def demoCfg : FactoryConfig :=
  { schema := passSchema, updateSchema := some demoUpdateSchema,
    validateUpdate := some demoValidator }

/-- The demo order entity (state `draft`). -/
def demoEntity : Entity := mkEntity demoCfg demoProps

/-- The demo order aggregate with one pending event. -/
def demoAggregate : Aggregate Nat := mkAggregate demoCfg demoProps [7]

/-!
The claims.
-/

/-- C1: two-stage validation ordering of `patch`, for entities and
aggregate roots.  (i) When the update payload fails the effective update
schema, the patch result is that failure whatever `validateUpdate` is
configured — the business-rule hook is never consulted.  (ii) When the
payload validates but the configured `validateUpdate` fails, the patch
result is exactly that failure — no merge output is consulted.  (iii) When
both succeed, the result is the full-schema re-validation of the shallow
merge of the validated updates over the current properties, mapped into a
new instance; (iv) the merge lets update fields win on key collisions. -/
theorem c1_two_stage_validation (cfg : FactoryConfig) (e : Entity)
    (a : Aggregate ε) (u : Props) :
    (∀ errs,
      pureZodParse u (effectiveUpdateSchema cfg) = Result.failure errs →
      ∀ f, entityPatch { cfg with validateUpdate := f } e u =
          Result.failure errs ∧
        aggregatePatch { cfg with validateUpdate := f } a u =
          Result.failure errs) ∧
    (∀ vu vufn errs,
      pureZodParse u (effectiveUpdateSchema cfg) = Result.success vu →
      cfg.validateUpdate = some vufn →
      vufn e.properties vu = Result.failure errs →
      entityPatch cfg e u = Result.failure errs) ∧
    (∀ vu vufn errs,
      pureZodParse u (effectiveUpdateSchema cfg) = Result.success vu →
      cfg.validateUpdate = some vufn →
      vufn a.properties vu = Result.failure errs →
      aggregatePatch cfg a u = Result.failure errs) ∧
    (∀ vu,
      pureZodParse u (effectiveUpdateSchema cfg) = Result.success vu →
      (∀ vufn, cfg.validateUpdate = some vufn →
        vufn e.properties vu = Result.success ()) →
      entityPatch cfg e u =
        (pureZodParse (objSpread e.properties vu) cfg.schema).mapSuccess
          (fun vd => Result.success (mkEntity cfg vd))) ∧
    (∀ vu,
      pureZodParse u (effectiveUpdateSchema cfg) = Result.success vu →
      (∀ vufn, cfg.validateUpdate = some vufn →
        vufn a.properties vu = Result.success ()) →
      aggregatePatch cfg a u =
        (pureZodParse (objSpread a.properties vu) cfg.schema).mapSuccess
          (fun vd => Result.success (mkAggregate cfg vd a.domainEvents))) ∧
    (∀ (b : Props) (k : String) (w : Value), lookupProp b k = some w →
      lookupProp (objSpread e.properties b) k = some w) := by
  refine ⟨?_, ?_, ?_, ?_, ?_, ?_⟩
  · intro errs hfail f
    constructor
    · unfold entityPatch
      have h' : pureZodParse u
          (effectiveUpdateSchema { cfg with validateUpdate := f }) =
          Result.failure errs := hfail
      rw [h']
      rfl
    · unfold aggregatePatch
      have h' : pureZodParse u
          (effectiveUpdateSchema { cfg with validateUpdate := f }) =
          Result.failure errs := hfail
      rw [h']
      rfl
  · intro vu vufn errs hok hval hfail
    unfold entityPatch
    rw [hok]
    dsimp only [Result.chainSuccess]
    rw [hval]
    dsimp only
    rw [hfail]
    rfl
  · intro vu vufn errs hok hval hfail
    unfold aggregatePatch
    rw [hok]
    dsimp only [Result.chainSuccess]
    rw [hval]
    dsimp only
    rw [hfail]
    rfl
  · intro vu hok hvalok
    unfold entityPatch
    rw [hok]
    dsimp only [Result.chainSuccess]
    cases hval : cfg.validateUpdate with
    | none => rfl
    | some vufn =>
        dsimp only
        rw [hvalok vufn hval]
  · intro vu hok hvalok
    unfold aggregatePatch
    rw [hok]
    dsimp only [Result.chainSuccess]
    cases hval : cfg.validateUpdate with
    | none => rfl
    | some vufn =>
        dsimp only
        rw [hvalok vufn hval]
  · intro b k w hw
    rw [lookupProp_objSpread, hw]

/-- C1 witness: the specification's concrete order scenario, on the demo
configuration.  A payload missing `status` fails the update schema and the
patch result is that failure (whatever validator is configured); shipping
a draft order fails with the business-rule error; confirming succeeds and
yields the merged instance; the merge lets the update's `status` win. -/
theorem c1_witness :
    entityPatch demoCfg demoEntity [] = Result.failure ["statusRequired"] ∧
    entityPatch demoCfg demoEntity [(statusKey, Value.str "shipped")] =
      Result.failure ["cannotShipUnconfirmedOrder"] ∧
    entityPatch demoCfg demoEntity [(statusKey, Value.str "confirmed")] =
      Result.success (mkEntity demoCfg
        (objSpread demoProps [(statusKey, Value.str "confirmed")])) ∧
    lookupProp (objSpread demoProps [(statusKey, Value.str "shipped")])
      statusKey = some (Value.str "shipped") := by
  have h := c1_two_stage_validation (ε := Nat) demoCfg demoEntity
    demoAggregate []
  have h2 := c1_two_stage_validation (ε := Nat) demoCfg demoEntity
    demoAggregate [(statusKey, Value.str "shipped")]
  have h3 := c1_two_stage_validation (ε := Nat) demoCfg demoEntity
    demoAggregate [(statusKey, Value.str "confirmed")]
  refine ⟨?_, ?_, ?_, ?_⟩
  · exact (h.1 ["statusRequired"] (by decide) (some demoValidator)).1
  · exact h2.2.1 [(statusKey, Value.str "shipped")] demoValidator
      ["cannotShipUnconfirmedOrder"] (by decide) rfl (by decide)
  · exact h3.2.2.2.1 [(statusKey, Value.str "confirmed")] (by decide)
      (by
        intro vufn hv
        have h4 : demoValidator = vufn := by
          injection (show some demoValidator = some vufn from hv)
        subst h4
        decide)
  · exact h2.2.2.2.2.2 [(statusKey, Value.str "shipped")] statusKey
      (Value.str "shipped") (by decide)

/-- Store-level success inversion: a successful `Entity.patch` means the
receiver's cell was readable and the result references the freshly
allocated cell at the end of the store. -/
theorem entityPatchH_success_ref {cfg : FactoryConfig} {s : Store}
    {e : EntityH} {u : Props} {e' : EntityH}
    (h : (entityPatchH cfg s e u).1 = Result.success e') :
    e.propsRef < s.cells.length ∧ e'.propsRef = s.cells.length := by
  unfold entityPatchH at h
  cases hget : s.get e.propsRef with
  | none =>
      rw [hget] at h
      exact absurd h (by simp)
  | some props =>
      rw [hget] at h
      cases hparse : pureZodParse u (effectiveUpdateSchema cfg) with
      | failure errs =>
          rw [hparse] at h
          exact absurd h (by simp)
      | success validatedUpdates =>
          rw [hparse] at h
          dsimp only at h
          cases hrv :
              (match cfg.validateUpdate with
              | some vu =>
                  (vu props validatedUpdates).chainSuccess (fun _ =>
                    pureZodParse (objSpread props validatedUpdates) cfg.schema)
              | none =>
                  pureZodParse (objSpread props validatedUpdates) cfg.schema)
              with
          | failure errs =>
              rw [hrv] at h
              exact absurd h (by simp)
          | success validatedData =>
              rw [hrv] at h
              dsimp only [mkEntityH, Store.alloc] at h
              refine ⟨Store.lt_of_get_some hget, ?_⟩
              rw [← (Result.success.inj h)]

/-- Store-level success inversion for `AggregateRoot.patch`. -/
theorem aggregatePatchH_success_ref {cfg : FactoryConfig} {s : Store}
    {a : AggregateH ε} {u : Props} {a' : AggregateH ε}
    (h : (aggregatePatchH cfg s a u).1 = Result.success a') :
    a.propsRef < s.cells.length ∧ a'.propsRef = s.cells.length := by
  unfold aggregatePatchH at h
  cases hget : s.get a.propsRef with
  | none =>
      rw [hget] at h
      exact absurd h (by simp)
  | some props =>
      rw [hget] at h
      cases hparse : pureZodParse u (effectiveUpdateSchema cfg) with
      | failure errs =>
          rw [hparse] at h
          exact absurd h (by simp)
      | success validatedUpdates =>
          rw [hparse] at h
          dsimp only at h
          cases hrv :
              (match cfg.validateUpdate with
              | some vu =>
                  (vu props validatedUpdates).chainSuccess (fun _ =>
                    pureZodParse (objSpread props validatedUpdates) cfg.schema)
              | none =>
                  pureZodParse (objSpread props validatedUpdates) cfg.schema)
              with
          | failure errs =>
              rw [hrv] at h
              exact absurd h (by simp)
          | success validatedData =>
              rw [hrv] at h
              dsimp only [mkAggregateH, Store.alloc] at h
              refine ⟨Store.lt_of_get_some hget, ?_⟩
              rw [← (Result.success.inj h)]

/-- C2: `patch` never mutates its receiver, for entities and aggregate
roots.  In the store-passing embedding (where every object spread is a
fresh allocation and the receiver's properties are a store cell), after
any `patch` call — success or failure — the receiver's properties cell
dereferences to exactly the value it held before the call, and a
successful patch returns a fresh instance whose properties live in a
newly allocated cell distinct from the receiver's. -/
theorem c2_patch_never_mutates (cfg : FactoryConfig) (s : Store)
    (e : EntityH) (a : AggregateH ε) (u : Props) :
    ((entityPatchH cfg s e u).2).get e.propsRef = s.get e.propsRef ∧
    (∀ e', (entityPatchH cfg s e u).1 = Result.success e' →
      e'.propsRef ≠ e.propsRef) ∧
    ((aggregatePatchH cfg s a u).2).get a.propsRef = s.get a.propsRef ∧
    (∀ a', (aggregatePatchH cfg s a u).1 = Result.success a' →
      a'.propsRef ≠ a.propsRef) := by
  refine ⟨entityPatchH_receiver cfg s e u, ?_,
    aggregatePatchH_receiver cfg s a u, ?_⟩
  · intro e' h
    obtain ⟨hlt, hfresh⟩ := entityPatchH_success_ref h
    omega
  · intro a' h
    obtain ⟨hlt, hfresh⟩ := aggregatePatchH_success_ref h
    omega

/-- The store holding only the demo order properties. -/
def demoStore : Store := Store.mk [demoProps]

/-- The demo order entity at the store level. -/
def demoEntityH : EntityH := EntityH.mk 0 (some (Value.str "o1"))

/-- The demo order aggregate at the store level, with one pending event. -/
def demoAggregateH : AggregateH Nat :=
  AggregateH.mk 0 (some (Value.str "o1")) [7]

/-- C2 witness: patching the demo order to `confirmed` at the store level
succeeds, leaves cell 0 (the receiver's properties) holding exactly the
original properties, and returns an instance referencing the fresh cell 1. -/
theorem c2_witness :
    ((entityPatchH demoCfg demoStore demoEntityH
        [(statusKey, Value.str "confirmed")]).2).get demoEntityH.propsRef =
      demoStore.get demoEntityH.propsRef ∧
    (entityPatchH demoCfg demoStore demoEntityH
        [(statusKey, Value.str "confirmed")]).1 =
      Result.success (EntityH.mk 1 (some (Value.str "o1"))) ∧
    (EntityH.mk 1 (some (Value.str "o1"))).propsRef ≠ demoEntityH.propsRef ∧
    ((aggregatePatchH demoCfg demoStore demoAggregateH
        [(statusKey, Value.str "confirmed")]).2).get
        demoAggregateH.propsRef =
      demoStore.get demoAggregateH.propsRef ∧
    (aggregatePatchH demoCfg demoStore demoAggregateH
        [(statusKey, Value.str "confirmed")]).1 =
      Result.success (AggregateH.mk 1 (some (Value.str "o1")) [7]) ∧
    (AggregateH.mk 1 (some (Value.str "o1")) [7]).propsRef ≠
      demoAggregateH.propsRef := by
  have h := c2_patch_never_mutates demoCfg demoStore demoEntityH
    demoAggregateH [(statusKey, Value.str "confirmed")]
  refine ⟨h.1, by decide, ?_, h.2.2.1, by decide, ?_⟩
  · exact h.2.1 (EntityH.mk 1 (some (Value.str "o1"))) (by decide)
  · exact h.2.2.2 (AggregateH.mk 1 (some (Value.str "o1")) [7]) (by decide)

/-- A configuration whose schema rejects every candidate. -/
def cfgRejectAll : FactoryConfig := FactoryConfig.mk failSchema none none none

/-- An instance obtained through the public constructor exposed in
`createPureEntity`'s declared return type, bypassing validation. -/
def unvalidatedEntity : Entity :=
  mkEntity cfgRejectAll [("a", Value.bool true)]

/-- C3 counterexample: the claim that no reachable instance can exist with
unvalidated properties is false.  With a schema that rejects everything, a
caller can still reach `new Entity({a: true})` through the public
constructor in the factory's declared return type, and no input validates
to that instance's properties. -/
theorem c3_counterexample :
    EntityReachable cfgRejectAll unvalidatedEntity ∧
    ¬ ∃ d : Props, pureZodParse d cfgRejectAll.schema =
      Result.success unvalidatedEntity.properties := by
  refine ⟨EntityReachable.ctor _, ?_⟩
  rintro ⟨d, hd⟩
  simp [pureZodParse, cfgRejectAll, failSchema] at hd

/-- C3 amended: instances obtained through the validating operations only
— `create` and `patch` (plus `addEvent`/`clearEvents` for aggregates),
with the public constructor excluded — always carry properties that are
the output of a successful validation against the configured schema; for
value objects and domain events, `create` is the only validating entry
point and the same holds. -/
theorem c3_amended_validated_properties :
    (∀ (cfg : FactoryConfig) (e : Entity), ValidatedEntityReachable cfg e →
      ∃ d, pureZodParse d cfg.schema = Result.success e.properties) ∧
    (∀ (ε : Type) (cfg : FactoryConfig) (a : Aggregate ε),
      ValidatedAggregateReachable cfg a →
      ∃ d, pureZodParse d cfg.schema = Result.success a.properties) ∧
    (∀ (schema : SchemaFn) (d : Props) (vo : ValueObject),
      valueObjectCreate schema d = Result.success vo →
      ∃ dd, pureZodParse dd schema = Result.success vo.properties) ∧
    (∀ (nm : String) (ps : SchemaFn) (now : Nat) (pl : Props)
      (ev : DomainEvent), domainEventCreate nm ps now pl = Result.success ev →
      ∃ dd, pureZodParse dd ps = Result.success ev.payload) := by
  refine ⟨?_, ?_, ?_, ?_⟩
  · intro cfg e h
    induction h with
    | create d e hc =>
        obtain ⟨v, hv, rfl⟩ := entityCreate_success_inv hc
        exact ⟨d, hv⟩
    | patch e u e' h0 hp ih =>
        obtain ⟨vu, vd, hvu, hvd, rfl⟩ := entityPatch_success_inv hp
        exact ⟨objSpread e.properties vu, hvd⟩
  · intro ε cfg a h
    induction h with
    | create d a hc =>
        obtain ⟨v, hv, rfl⟩ := aggregateCreate_success_inv hc
        exact ⟨d, hv⟩
    | patch a u a' h0 hp ih =>
        obtain ⟨vu, vd, hvu, hvd, rfl⟩ := aggregatePatch_success_inv hp
        exact ⟨objSpread a.properties vu, hvd⟩
    | add a ev h0 ih => exact ih
    | clear a h0 ih => exact ih
  · intro schema d vo h
    unfold valueObjectCreate at h
    cases hv : pureZodParse d schema with
    | failure errs =>
        rw [hv] at h
        exact absurd h (by simp [Result.mapSuccess])
    | success v =>
        rw [hv] at h
        simp only [Result.mapSuccess] at h
        cases Result.success.inj h
        exact ⟨d, hv⟩
  · intro nm ps now pl ev h
    unfold domainEventCreate at h
    cases hv : pureZodParse pl ps with
    | failure errs =>
        rw [hv] at h
        exact absurd h (by simp [Result.mapSuccess])
    | success v =>
        rw [hv] at h
        simp only [Result.mapSuccess] at h
        cases Result.success.inj h
        exact ⟨pl, hv⟩

/-- C3 witness: the amended invariant applied to concrete instances of
each factory (a created demo entity, a created-then-patched demo
aggregate, a value object and a domain event). -/
theorem c3_witness :
    (∃ d, pureZodParse d demoCfg.schema =
      Result.success demoEntity.properties) ∧
    (∃ d, pureZodParse d demoCfg.schema =
      Result.success (mkAggregate demoCfg demoProps
        ([] : List Nat)).properties) ∧
    (∃ dd, pureZodParse dd passSchema =
      Result.success (ValueObject.mk [("v", Value.str "x")]).properties) ∧
    (∃ dd, pureZodParse dd passSchema =
      Result.success (DomainEvent.mk "UserCreated" 0
        [("userId", Value.str "u1")]).payload) := by
  refine ⟨?_, ?_, ?_, ?_⟩
  · exact c3_amended_validated_properties.1 demoCfg demoEntity
      (ValidatedEntityReachable.create demoProps demoEntity (by decide))
  · exact c3_amended_validated_properties.2.1 Nat demoCfg
      (mkAggregate demoCfg demoProps [])
      (ValidatedAggregateReachable.create demoProps _ (by decide))
  · exact c3_amended_validated_properties.2.2.1 passSchema
      [("v", Value.str "x")] (ValueObject.mk [("v", Value.str "x")])
      (by decide)
  · exact c3_amended_validated_properties.2.2.2 "UserCreated" passSchema 0
      [("userId", Value.str "u1")]
      (DomainEvent.mk "UserCreated" 0 [("userId", Value.str "u1")])
      (by decide)

/-- A schema that validates every candidate to the empty object — the
behaviour of the zod object schema with no fields, which strips all
unknown keys. -/
def stripAllSchema : SchemaFn := fun _ => Result.success []

/-- C4 counterexample: the claim that creations from inputs differing in a
field always compare unequal is false.  Under a schema that strips unknown
keys (an ordinary zod object schema), the inputs `{a: "1"}` and
`{a: "2"}` differ in field `a`, both creations succeed, and the two
instances' `equals` is `true` because both validated to the same
properties. -/
theorem c4_counterexample :
    valueObjectCreate stripAllSchema [("a", Value.str "1")] =
      Result.success (ValueObject.mk []) ∧
    valueObjectCreate stripAllSchema [("a", Value.str "2")] =
      Result.success (ValueObject.mk []) ∧
    lookupProp [("a", Value.str "1")] "a" ≠
      lookupProp [("a", Value.str "2")] "a" ∧
    valueObjectEquals (ValueObject.mk []) (ValueObject.mk []) = true := by
  refine ⟨by decide, by decide, by decide, by decide⟩

/-- C4 amended: structural equality of value objects, stated on the
validated properties.  Two successful creations from an identical input
yield instances whose `equals` is true; and whenever the two created
instances' validated properties differ in at least one field, `equals` is
false (inputs that differ in a field may still compare equal when
validation collapses the difference, as the counterexample shows). -/
theorem c4_amended_structural_equality (schema : SchemaFn) (x y : Props)
    (a b : ValueObject)
    (hax : valueObjectCreate schema x = Result.success a)
    (hby : valueObjectCreate schema y = Result.success b) :
    (x = y → valueObjectEquals a b = true) ∧
    ((∃ k, lookupProp a.properties k ≠ lookupProp b.properties k) →
      valueObjectEquals a b = false) := by
  constructor
  · intro hxy
    subst hxy
    rw [hax] at hby
    cases Result.success.inj hby
    exact (valueObjectEquals_iff a a).mpr rfl
  · rintro ⟨k, hk⟩
    cases heq : valueObjectEquals a b with
    | false => rfl
    | true =>
        exact absurd (congrArg (fun p => lookupProp p k)
          ((valueObjectEquals_iff a b).mp heq)) hk

/-- C4 witness: on a passthrough schema, identical creations compare
equal, and creations whose validated properties differ in field `a`
compare unequal. -/
theorem c4_witness :
    valueObjectEquals (ValueObject.mk [("a", Value.str "1")])
      (ValueObject.mk [("a", Value.str "1")]) = true ∧
    valueObjectEquals (ValueObject.mk [("a", Value.str "1")])
      (ValueObject.mk [("a", Value.str "2")]) = false := by
  constructor
  · exact (c4_amended_structural_equality passSchema
      [("a", Value.str "1")] [("a", Value.str "1")]
      (ValueObject.mk [("a", Value.str "1")])
      (ValueObject.mk [("a", Value.str "1")])
      (by decide) (by decide)).1 rfl
  · exact (c4_amended_structural_equality passSchema
      [("a", Value.str "1")] [("a", Value.str "2")]
      (ValueObject.mk [("a", Value.str "1")])
      (ValueObject.mk [("a", Value.str "2")])
      (by decide) (by decide)).2 ⟨"a", by decide⟩

/-- C5: event ordering.  On an aggregate whose event sequence is `[e1]`,
`addEvent e2` yields the sequence `[e1, e2]` in that order and preserves
properties and identifier; `clearEvents` on that result yields the empty
sequence, again preserving properties and identifier; and the receiver's
own sequence is still `[e1]` (in the pure embedding no operation can
mutate it).  The well-formedness hypothesis records that the receiver was
built by the constructor, which caches `identifier` as the extractor
applied to its properties. -/
theorem c5_event_ordering (cfg : FactoryConfig) (a : Aggregate ε)
    (e1 e2 : ε) (hwf : a.identifier = idExtract cfg a.properties)
    (hev : a.domainEvents = [e1]) :
    (addEvent cfg a e2).domainEvents = [e1, e2] ∧
    (clearEvents cfg (addEvent cfg a e2)).domainEvents = ([] : List ε) ∧
    (clearEvents cfg (addEvent cfg a e2)).properties = a.properties ∧
    (clearEvents cfg (addEvent cfg a e2)).identifier = a.identifier ∧
    (addEvent cfg a e2).properties = a.properties ∧
    (addEvent cfg a e2).identifier = a.identifier ∧
    a.domainEvents = [e1] := by
  refine ⟨by simp [addEvent, mkAggregate, hev], rfl, rfl, ?_, rfl, ?_, hev⟩
  · show idExtract cfg a.properties = a.identifier
    exact hwf.symm
  · show idExtract cfg a.properties = a.identifier
    exact hwf.symm

/-- C5 witness: the demo aggregate starts with events `[7]`; adding `8`
yields `[7, 8]`, clearing yields `[]`, and properties and identifier are
preserved throughout. -/
theorem c5_witness :
    (addEvent demoCfg demoAggregate 8).domainEvents = [7, 8] ∧
    (clearEvents demoCfg (addEvent demoCfg demoAggregate 8)).domainEvents =
      ([] : List Nat) ∧
    (clearEvents demoCfg (addEvent demoCfg demoAggregate 8)).properties =
      demoAggregate.properties ∧
    (clearEvents demoCfg (addEvent demoCfg demoAggregate 8)).identifier =
      demoAggregate.identifier := by
  have h := c5_event_ordering demoCfg demoAggregate 7 8 rfl rfl
  exact ⟨h.1, h.2.1, h.2.2.1, h.2.2.2.1⟩

/-- C6: a successful `patch` on an aggregate root returns an instance
whose `domainEvents` sequence is exactly the receiver's sequence, in the
same order. -/
theorem c6_patch_preserves_events (cfg : FactoryConfig) (a a' : Aggregate ε)
    (u : Props) (h : aggregatePatch cfg a u = Result.success a') :
    a'.domainEvents = a.domainEvents := by
  obtain ⟨vu, vd, hvu, hvd, rfl⟩ := aggregatePatch_success_inv h
  rfl

/-- C6 witness: confirming the demo order aggregate succeeds and the new
instance still carries the pending event sequence `[7]`. -/
theorem c6_witness :
    (mkAggregate demoCfg
      (objSpread demoProps [(statusKey, Value.str "confirmed")])
      ([7] : List Nat)).domainEvents = demoAggregate.domainEvents := by
  exact c6_patch_preserves_events demoCfg demoAggregate
    (mkAggregate demoCfg
      (objSpread demoProps [(statusKey, Value.str "confirmed")]) [7])
    [(statusKey, Value.str "confirmed")] (by decide)

/-- C7: with an update schema that accepts no value, every `patch` call —
on entities and on aggregate roots, with any payload — returns a failure,
and (at the store level) the receiver's properties cell is unchanged by
the call. -/
theorem c7_never_update_schema (cfg : FactoryConfig) (us : SchemaFn)
    (hus : cfg.updateSchema = some us)
    (hnever : ∀ u, (us u).isSuccess = false) :
    (∀ (e : Entity) (u : Props),
      (entityPatch cfg e u).isSuccess = false) ∧
    (∀ (a : Aggregate ε) (u : Props),
      (aggregatePatch cfg a u).isSuccess = false) ∧
    (∀ (s : Store) (e : EntityH) (u : Props),
      ((entityPatchH cfg s e u).2).get e.propsRef = s.get e.propsRef) ∧
    (∀ (s : Store) (a : AggregateH ε) (u : Props),
      ((aggregatePatchH cfg s a u).2).get a.propsRef = s.get a.propsRef) := by
  have heff : ∀ u : Props, pureZodParse u (effectiveUpdateSchema cfg) = us u := by
    intro u
    unfold pureZodParse effectiveUpdateSchema
    rw [hus]
  refine ⟨?_, ?_, fun s e u => entityPatchH_receiver cfg s e u,
    fun s a u => aggregatePatchH_receiver cfg s a u⟩
  · intro e u
    unfold entityPatch
    rw [heff u]
    cases hu : us u with
    | success v =>
        have := hnever u
        rw [hu] at this
        exact absurd this (by simp [Result.isSuccess])
    | failure errs => rfl
  · intro a u
    unfold aggregatePatch
    rw [heff u]
    cases hu : us u with
    | success v =>
        have := hnever u
        rw [hu] at this
        exact absurd this (by simp [Result.isSuccess])
    | failure errs => rfl

/-- A configuration with an update schema that accepts nothing (the
documented immutable-instance pattern). -/
def cfgNever : FactoryConfig :=
  FactoryConfig.mk passSchema (some failSchema) none none

/-- C7 witness: on the never-accepting update schema, empty and non-empty
patches fail on the entity and on the aggregate, and the receiver's
store cell is untouched. -/
theorem c7_witness :
    (entityPatch cfgNever (mkEntity cfgNever demoProps) []).isSuccess =
      false ∧
    (entityPatch cfgNever (mkEntity cfgNever demoProps)
      [(statusKey, Value.str "confirmed")]).isSuccess = false ∧
    (aggregatePatch cfgNever (mkAggregate cfgNever demoProps
      ([7] : List Nat)) []).isSuccess = false ∧
    ((entityPatchH cfgNever demoStore demoEntityH []).2).get
      demoEntityH.propsRef = demoStore.get demoEntityH.propsRef := by
  have h := c7_never_update_schema (ε := Nat) cfgNever failSchema rfl
    (fun u => rfl)
  exact ⟨h.1 (mkEntity cfgNever demoProps) [],
    h.1 (mkEntity cfgNever demoProps) [(statusKey, Value.str "confirmed")],
    h.2.1 (mkAggregate cfgNever demoProps [7]) [],
    h.2.2.1 demoStore demoEntityH []⟩

/-- A schema with a transforming field: it reads `n` and returns the
object with `n` incremented (realizable in the source as
`z.object({n: z.number().transform(k => k + 1)})`). -/
def incSchema : SchemaFn := fun p =>
  match lookupProp p "n" with
  | some (Value.nat k) => Result.success [("n", Value.nat (k + 1))]
  | _ => Result.failure ["expectedN"]

/-- The update schema of a zod object with no fields: every payload
validates, to the empty update. -/
def emptyOkSchema : SchemaFn := fun _ => Result.success []

/-- Entity/aggregate configuration with the transforming full schema and
the empty-accepting update schema. -/
def cfgInc : FactoryConfig :=
  FactoryConfig.mk incSchema (some emptyOkSchema) none none

/-- The entity created by `cfgInc` from `{n: 1}`. -/
def entInc : Entity := mkEntity cfgInc [("n", Value.nat 2)]

/-- C8 counterexample: the claim that an accepted empty patch leaves the
properties deep-equal is false when the full schema transforms a field.
`create({n: 1})` yields properties `{n: 2}`; the update schema
accepts the empty payload (validating it to the empty update) and there
is no business-rule validator, yet `patch({})` succeeds with
properties `{n: 3}`, because the merged whole is re-validated
through the transforming schema. -/
theorem c8_counterexample :
    entityCreate cfgInc [("n", Value.nat 1)] = Result.success entInc ∧
    pureZodParse [] (effectiveUpdateSchema cfgInc) = Result.success [] ∧
    cfgInc.validateUpdate = none ∧
    entityPatch cfgInc entInc [] =
      Result.success (mkEntity cfgInc [("n", Value.nat 3)]) ∧
    (mkEntity cfgInc [("n", Value.nat 3)]).properties ≠ entInc.properties
    := by
  refine ⟨by decide, by decide, rfl, by decide, by decide⟩

/-- C8 amended: the empty patch is idempotent provided the update schema
validates the empty payload to the empty update, no configured
business-rule validator rejects it, and the full schema is stable on the
instance's current properties (re-validating them returns them unchanged
— true of non-transforming zod schemas on already-validated data).  Then
`patch({})` succeeds and the new instance's properties equal the
receiver's, for entities and aggregate roots. -/
theorem c8_amended_empty_patch (cfg : FactoryConfig) (e : Entity)
    (a : Aggregate ε)
    (hempty : pureZodParse [] (effectiveUpdateSchema cfg) =
      Result.success [])
    (hvalE : ∀ vufn, cfg.validateUpdate = some vufn →
      vufn e.properties [] = Result.success ())
    (hvalA : ∀ vufn, cfg.validateUpdate = some vufn →
      vufn a.properties [] = Result.success ())
    (hstableE : pureZodParse e.properties cfg.schema =
      Result.success e.properties)
    (hstableA : pureZodParse a.properties cfg.schema =
      Result.success a.properties) :
    entityPatch cfg e [] = Result.success (mkEntity cfg e.properties) ∧
    (mkEntity cfg e.properties).properties = e.properties ∧
    aggregatePatch cfg a [] =
      Result.success (mkAggregate cfg a.properties a.domainEvents) ∧
    (mkAggregate cfg a.properties a.domainEvents).properties =
      a.properties := by
  refine ⟨?_, rfl, ?_, rfl⟩
  · unfold entityPatch
    rw [hempty]
    dsimp only [Result.chainSuccess]
    cases hval : cfg.validateUpdate with
    | none =>
        rw [objSpread_nil_right, hstableE]
        rfl
    | some vufn =>
        dsimp only
        rw [hvalE vufn hval]
        dsimp only [Result.chainSuccess]
        rw [objSpread_nil_right, hstableE]
        rfl
  · unfold aggregatePatch
    rw [hempty]
    dsimp only [Result.chainSuccess]
    cases hval : cfg.validateUpdate with
    | none =>
        rw [objSpread_nil_right, hstableA]
        rfl
    | some vufn =>
        dsimp only
        rw [hvalA vufn hval]
        dsimp only [Result.chainSuccess]
        rw [objSpread_nil_right, hstableA]
        rfl

/-- Configuration for the C8 witness: passthrough full schema, empty
update schema, no business rule. -/
def cfgEmptyPatch : FactoryConfig :=
  FactoryConfig.mk passSchema (some emptyOkSchema) none none

/-- C8 witness: on the stable demo configuration, `patch({})`
succeeds on entity and aggregate and returns instances with the same
properties. -/
theorem c8_witness :
    entityPatch cfgEmptyPatch (mkEntity cfgEmptyPatch demoProps) [] =
      Result.success (mkEntity cfgEmptyPatch demoProps) ∧
    (mkEntity cfgEmptyPatch demoProps).properties = demoProps ∧
    aggregatePatch cfgEmptyPatch
      (mkAggregate cfgEmptyPatch demoProps ([7] : List Nat)) [] =
      Result.success (mkAggregate cfgEmptyPatch demoProps [7]) := by
  have h := c8_amended_empty_patch cfgEmptyPatch
    (mkEntity cfgEmptyPatch demoProps)
    (mkAggregate cfgEmptyPatch demoProps ([7] : List Nat)) rfl
    (fun vufn hv => by simp [cfgEmptyPatch] at hv)
    (fun vufn hv => by simp [cfgEmptyPatch] at hv) rfl rfl
  exact ⟨h.1, h.2.1, h.2.2.1⟩

/-- A schema whose `id` field transforms on every validation (realizable
as `z.object({id: z.string().transform(s => s + "x")})`). -/
def idTransformSchema : SchemaFn := fun p =>
  match lookupProp p idKey with
  | some (Value.str s) => Result.success [(idKey, Value.str (s ++ "x"))]
  | _ => Result.failure ["expectedId"]

/-- Configuration with the id-transforming schema and an update schema
that validates every payload to the empty update — it certainly excludes
the identifying field. -/
def cfgIdTransform : FactoryConfig :=
  FactoryConfig.mk idTransformSchema (some emptyOkSchema) none none

/-- The entity created by `cfgIdTransform` from `{id: "a"}`. -/
def entIdTransform : Entity := mkEntity cfgIdTransform [(idKey, Value.str "ax")]

/-- C9 counterexample: the claim that the identifier cannot change across
a successful patch when the update schema excludes identifying fields is
false when the full schema transforms the identifying field.  Every
validated update is empty (so the update schema excludes `id`), creation
from `{id: "a"}` yields identifier `"ax"`, yet `patch({})`
succeeds and the new instance's identifier is `"axx"`, recomputed from the
re-validated merge. -/
theorem c9_counterexample :
    (∀ u : Props, pureZodParse u (effectiveUpdateSchema cfgIdTransform) =
      Result.success []) ∧
    entityCreate cfgIdTransform [(idKey, Value.str "a")] =
      Result.success entIdTransform ∧
    entityPatch cfgIdTransform entIdTransform [] =
      Result.success (mkEntity cfgIdTransform [(idKey, Value.str "axx")]) ∧
    (mkEntity cfgIdTransform [(idKey, Value.str "axx")]).identifier ≠
      entIdTransform.identifier := by
  refine ⟨fun u => rfl, by decide, by decide, by decide⟩

/-- C9 amended: identifier stability across `patch`.  Let `K` mark the
updatable field names.  If every validated update only contains `K`-keys,
the identifier extractor only reads non-`K` fields, and full-schema
re-validation preserves non-`K` fields (true of non-transforming zod
schemas), then every successful patch preserves the identifier, on
entities and aggregate roots.  The well-formedness hypotheses record that
the receivers were built by the constructor. -/
theorem c9_amended_identifier_stability (cfg : FactoryConfig)
    (K : String → Bool) (e : Entity) (a : Aggregate ε)
    (hwfE : e.identifier = idExtract cfg e.properties)
    (hwfA : a.identifier = idExtract cfg a.properties)
    (hupd : ∀ u vu, pureZodParse u (effectiveUpdateSchema cfg) =
      Result.success vu → ∀ kv ∈ vu, K kv.1 = true)
    (hext : ∀ p q : Props,
      (∀ k, K k = false → lookupProp p k = lookupProp q k) →
      idExtract cfg p = idExtract cfg q)
    (hstable : ∀ p v, pureZodParse p cfg.schema = Result.success v →
      ∀ k, K k = false → lookupProp v k = lookupProp p k) :
    (∀ u e', entityPatch cfg e u = Result.success e' →
      e'.identifier = e.identifier) ∧
    (∀ u a', aggregatePatch cfg a u = Result.success a' →
      a'.identifier = a.identifier) := by
  constructor
  · intro u e' h
    obtain ⟨vu, vd, hvu, hvd, rfl⟩ := entityPatch_success_inv h
    have hvuK := hupd u vu hvu
    have hagree : ∀ k, K k = false →
        lookupProp vd k = lookupProp e.properties k := by
      intro k hk
      have h1 := hstable _ _ hvd k hk
      have h2 : lookupProp vu k = none := by
        cases hl : lookupProp vu k with
        | none => rfl
        | some w =>
            exact absurd (hvuK (k, w) (mem_of_lookupProp_some hl))
              (by simp [hk])
      rw [h1, lookupProp_objSpread, h2]
    rw [hwfE]
    exact hext vd e.properties hagree
  · intro u a' h
    obtain ⟨vu, vd, hvu, hvd, rfl⟩ := aggregatePatch_success_inv h
    have hvuK := hupd u vu hvu
    have hagree : ∀ k, K k = false →
        lookupProp vd k = lookupProp a.properties k := by
      intro k hk
      have h1 := hstable _ _ hvd k hk
      have h2 : lookupProp vu k = none := by
        cases hl : lookupProp vu k with
        | none => rfl
        | some w =>
            exact absurd (hvuK (k, w) (mem_of_lookupProp_some hl))
              (by simp [hk])
      rw [h1, lookupProp_objSpread, h2]
    rw [hwfA]
    exact hext vd a.properties hagree

/-- An update schema that keeps exactly the `status` field of the
payload. -/
def statusOnlySchema : SchemaFn := fun u =>
  match lookupProp u statusKey with
  | some v => Result.success [(statusKey, v)]
  | none => Result.failure ["statusRequired"]

/-- Configuration for the C9 witness: passthrough full schema,
status-only update schema, default id extractor. -/
def cfgStatusOnly : FactoryConfig :=
  FactoryConfig.mk passSchema (some statusOnlySchema) none none

/-- C9 witness: on the status-only update schema with the passthrough
(stable) full schema, confirming the demo order preserves the
identifier. -/
theorem c9_witness :
    (mkEntity cfgStatusOnly
      (objSpread demoProps [(statusKey, Value.str "confirmed")])).identifier
      = (mkEntity cfgStatusOnly demoProps).identifier ∧
    (mkAggregate cfgStatusOnly
      (objSpread demoProps [(statusKey, Value.str "confirmed")])
      ([7] : List Nat)).identifier =
      (mkAggregate cfgStatusOnly demoProps ([7] : List Nat)).identifier
    := by
  have h := c9_amended_identifier_stability cfgStatusOnly
    (fun k => k == statusKey) (mkEntity cfgStatusOnly demoProps)
    (mkAggregate cfgStatusOnly demoProps ([7] : List Nat)) rfl rfl
    (by
      intro u vu hv kv hm
      unfold pureZodParse effectiveUpdateSchema cfgStatusOnly at hv
      dsimp only at hv
      unfold statusOnlySchema at hv
      cases hl : lookupProp u statusKey with
      | none =>
          rw [hl] at hv
          exact Result.noConfusion hv
      | some v =>
          rw [hl] at hv
          cases Result.success.inj hv
          simp at hm
          subst hm
          simp)
    (fun p q hpq => hpq idKey (by decide))
    (by
      intro p v hv k hk
      cases Result.success.inj hv
      rfl)
  exact ⟨h.1 [(statusKey, Value.str "confirmed")] _ (by decide),
    h.2 [(statusKey, Value.str "confirmed")] _ (by decide)⟩

/-- A schema accepting only objects without an `id` field (and returning
them unchanged). -/
def noIdSchema : SchemaFn := fun p =>
  if lookupProp p idKey = none then Result.success p
  else Result.failure ["hasId"]

/-- Configuration with the default identifier extractor over a schema
with no `id` field. -/
def cfgNoId : FactoryConfig := FactoryConfig.mk noIdSchema none none none

/-- C10: when the identifier extractor is omitted and no validated output
carries an `id` field, every successfully created entity or aggregate
root has an undefined (`none`) identifier, and `equals` between any two
such instances is true — even with entirely different properties
(JavaScript `undefined === undefined`). -/
theorem c10_default_identifier_undefined (cfg : FactoryConfig)
    (hnoext : cfg.identifierExtractor = none)
    (hnoid : ∀ d v, pureZodParse d cfg.schema = Result.success v →
      lookupProp v idKey = none) :
    (∀ d1 d2 e1 e2, entityCreate cfg d1 = Result.success e1 →
      entityCreate cfg d2 = Result.success e2 →
      e1.identifier = none ∧ e2.identifier = none ∧
      entityEquals e1 e2 = true) ∧
    (∀ (d1 d2 : Props) (a1 a2 : Aggregate ε),
      aggregateCreate cfg d1 = Result.success a1 →
      aggregateCreate cfg d2 = Result.success a2 →
      a1.identifier = none ∧ a2.identifier = none ∧
      aggregateEquals a1 a2 = true) := by
  have hid : ∀ v : Props, idExtract cfg v = lookupProp v idKey := by
    intro v
    unfold idExtract
    rw [hnoext]
  constructor
  · intro d1 d2 e1 e2 h1 h2
    obtain ⟨v1, hv1, rfl⟩ := entityCreate_success_inv h1
    obtain ⟨v2, hv2, rfl⟩ := entityCreate_success_inv h2
    have he1 : (mkEntity cfg v1).identifier = none := by
      show idExtract cfg v1 = none
      rw [hid v1]
      exact hnoid d1 v1 hv1
    have he2 : (mkEntity cfg v2).identifier = none := by
      show idExtract cfg v2 = none
      rw [hid v2]
      exact hnoid d2 v2 hv2
    refine ⟨he1, he2, ?_⟩
    unfold entityEquals
    rw [he1, he2]
    rfl
  · intro d1 d2 a1 a2 h1 h2
    obtain ⟨v1, hv1, rfl⟩ := aggregateCreate_success_inv h1
    obtain ⟨v2, hv2, rfl⟩ := aggregateCreate_success_inv h2
    have ha1 : (mkAggregate cfg v1 ([] : List ε)).identifier = none := by
      show idExtract cfg v1 = none
      rw [hid v1]
      exact hnoid d1 v1 hv1
    have ha2 : (mkAggregate cfg v2 ([] : List ε)).identifier = none := by
      show idExtract cfg v2 = none
      rw [hid v2]
      exact hnoid d2 v2 hv2
    refine ⟨ha1, ha2, ?_⟩
    unfold aggregateEquals
    rw [ha1, ha2]
    rfl

/-- C10 witness: two entities with entirely different properties created
over a schema with no `id` field both carry an undefined identifier and
compare equal. -/
theorem c10_witness :
    (mkEntity cfgNoId [("name", Value.str "x")]).identifier = none ∧
    (mkEntity cfgNoId [("name", Value.str "y")]).identifier = none ∧
    entityEquals (mkEntity cfgNoId [("name", Value.str "x")])
      (mkEntity cfgNoId [("name", Value.str "y")]) = true := by
  exact (c10_default_identifier_undefined (ε := Nat) cfgNoId rfl
    (by
      intro d v hv
      unfold pureZodParse cfgNoId at hv
      dsimp only at hv
      unfold noIdSchema at hv
      by_cases hc : lookupProp d idKey = none
      · rw [if_pos hc] at hv
        cases Result.success.inj hv
        exact hc
      · rw [if_neg hc] at hv
        exact Result.noConfusion hv)).1
    [("name", Value.str "x")] [("name", Value.str "y")]
    (mkEntity cfgNoId [("name", Value.str "x")])
    (mkEntity cfgNoId [("name", Value.str "y")]) (by decide) (by decide)

end PureDomain
